import Mathlib

/-!
Verification of the motion-detection / viewport-tracking core
(`motion_detector.py`, `viewport_tracker.py`).

The Python code is shallowly embedded as executable Lean definitions:

* Python machine integers are modelled as `ℤ` (no overflow occurs in the
  algorithms: they only add, multiply and divide frame coordinates).
* Python `//` (floor division) is `Int.fdiv`.
* Python float arithmetic on the smoothing factor and on the
  area-weighted average is modelled exactly over `ℚ`; Python `int()`
  (truncation toward zero) is `pyInt`.
* A frame enters the two algorithms only through its shape
  `(height, width)`, so frames are modelled by their shapes where only
  the shape is used; the pixel-level OpenCV primitives used by
  `detect_motion` (colour conversion, blur, absdiff, threshold, dilate,
  contour extraction) are kept abstract as an `ImageOps` record, since
  they are external library calls, and the detection policy is verified
  for every choice of primitives.
* The Python `IndexError` that `track_viewport` would raise when
  `motion_results` is longer than `frames` is modelled by `Option`
  (`none` = the fold aborts with an error).
-/

/-- A motion bounding box `(x, y, w, h)`: top-left corner plus width and
height, as in `motion_detector.py` / `viewport_tracker.py`. -/
abbrev Box := ℤ × ℤ × ℤ × ℤ

/-- A frame shape `(height, width)`, the first two components of a numpy
`frame.shape`. -/
abbrev Shape := ℤ × ℤ

/-- Python `int()` applied to an exact rational value: truncation toward
zero. -/
def pyInt (q : ℚ) : ℤ := if 0 ≤ q then ⌊q⌋ else ⌈q⌉

/-- The pixel area `w * h` of a box, the weight used by
`calculate_region_of_interest`. -/
def boxArea (b : Box) : ℤ := b.2.2.1 * b.2.2.2

/-- The x coordinate `x + w // 2` of a box center. -/
def boxCenterX (b : Box) : ℤ := b.1 + (b.2.2.1).fdiv 2

/-- The y coordinate `y + h // 2` of a box center. -/
def boxCenterY (b : Box) : ℤ := b.2.1 + (b.2.2.2).fdiv 2

/-- The accumulation loop of `calculate_region_of_interest`: returns
`(weighted_x, weighted_y, total_weight)`. -/
def roiFold (motion_boxes : List Box) : ℤ × ℤ × ℤ :=
  motion_boxes.foldl
    (fun acc b =>
      (acc.1 + boxCenterX b * boxArea b,
       acc.2.1 + boxCenterY b * boxArea b,
       acc.2.2 + boxArea b))
    (0, 0, 0)

/-- Python `max(motion_boxes, key=lambda box: box[2] * box[3])`: the
first box of maximal area (ties keep the earlier box). -/
def largestBox (b : Box) (bs : List Box) : Box :=
  bs.foldl (fun best c => if boxArea best < boxArea c then c else best) b

/-- Embedding of `calculate_region_of_interest` from
`viewport_tracker.py`.  Empty box list or non-positive total weight fall
back to the frame center `(width // 2, height // 2, 0, 0)`; otherwise
the area-weighted average center (Python `int(float)` truncation) and
the dimensions of the largest box are returned. -/
def calculate_region_of_interest (motion_boxes : List Box) (frame_shape : Shape) :
    ℤ × ℤ × ℤ × ℤ :=
  match motion_boxes with
  | [] => ((frame_shape.2).fdiv 2, (frame_shape.1).fdiv 2, 0, 0)
  | b :: bs =>
    let acc := roiFold (b :: bs)
    if 0 < acc.2.2 then
      let largest := largestBox b bs
      (pyInt ((acc.1 : ℚ) / (acc.2.2 : ℚ)), pyInt ((acc.2.1 : ℚ) / (acc.2.2 : ℚ)),
       largest.2.2.1, largest.2.2.2)
    else ((frame_shape.2).fdiv 2, (frame_shape.1).fdiv 2, 0, 0)

/-- The `(roi_x, roi_y)` pair that `track_viewport` extracts from
`calculate_region_of_interest`. -/
def roiCenter (motion_boxes : List Box) (frame_shape : Shape) : ℤ × ℤ :=
  ((calculate_region_of_interest motion_boxes frame_shape).1,
   (calculate_region_of_interest motion_boxes frame_shape).2.1)

/-- Python `max(lo, min(hi, x))`, the per-axis boundary clamp of
`track_viewport`. -/
def clampI (lo hi x : ℤ) : ℤ := max lo (min hi x)

/-- One axis of the exponential-smoothing update
`int(prev * (1 - smoothing_factor) + roi * smoothing_factor)`. -/
def smoothI (α : ℚ) (prev roi : ℤ) : ℤ :=
  pyInt ((prev : ℚ) * (1 - α) + (roi : ℚ) * α)

/-- Both axes of the smoothing update. -/
def smoothP (α : ℚ) (prev roi : ℤ × ℤ) : ℤ × ℤ :=
  (smoothI α prev.1 roi.1, smoothI α prev.2 roi.2)

/-- Both axes of the boundary clamp: `x` is clamped to
`[vp_w // 2, width - vp_w // 2]` and `y` to
`[vp_h // 2, height - vp_h // 2]`, with `(height, width)` taken from
`shape0` (the first frame). -/
def clampP (shape0 : Shape) (viewport_size : ℤ × ℤ) (s : ℤ × ℤ) : ℤ × ℤ :=
  (clampI ((viewport_size.1).fdiv 2) (shape0.2 - (viewport_size.1).fdiv 2) s.1,
   clampI ((viewport_size.2).fdiv 2) (shape0.1 - (viewport_size.2).fdiv 2) s.2)

/-- The `for i, motion_boxes in enumerate(motion_results)` loop of
`track_viewport`, with the carried `(prev_x, prev_y)` state passed
explicitly.  The remaining `motion_results` are consumed in lockstep
with the remaining `frames` (Python indexes `frames[i]`); running out of
frames while motion results remain is Python's `IndexError`, modelled by
`none`.  `first` records whether the loop is at `i == 0`, where the ROI
center is used unsmoothed. -/
def trackGo (shape0 : Shape) (vp : ℤ × ℤ) (α : ℚ) (prev : ℤ × ℤ) (first : Bool) :
    List (List Box) → List Shape → Option (List (ℤ × ℤ))
  | [], _ => some []
  | _ :: _, [] => none
  | boxes :: ms, sh :: fs =>
    let s := if first then roiCenter boxes sh else smoothP α prev (roiCenter boxes sh)
    let c := clampP shape0 vp s
    Option.map (fun rest => c :: rest) (trackGo shape0 vp α c false ms fs)

/-- Embedding of `track_viewport` from `viewport_tracker.py`.  Empty
`frames` returns the empty list; otherwise the clamp dimensions are
taken from `frames[0].shape`, the carry is seeded with the first frame's
center, and the loop runs over `motion_results` with `frames` starting
at index `0`. -/
def track_viewport (frames : List Shape) (motion_results : List (List Box))
    (viewport_size : ℤ × ℤ) (smoothing_factor : ℚ) : Option (List (ℤ × ℤ)) :=
  match frames with
  | [] => some []
  | sh0 :: _ =>
    trackGo sh0 viewport_size smoothing_factor ((sh0.2).fdiv 2, (sh0.1).fdiv 2) true
      motion_results frames

/-- The OpenCV raster primitives used by `detect_motion`, kept abstract:
the detection policy is verified for every implementation of them. -/
structure ImageOps (Img Gray Contour : Type) where
  cvtColorGray : Img → Gray
  gaussianBlur : Gray → Gray
  absdiff : Gray → Gray → Gray
  thresholdBin : Gray → ℚ → Gray
  dilate : Gray → Gray
  findContours : Gray → List Contour
  contourArea : Contour → ℚ
  boundingRect : Contour → Box

/-- The processed binary mask of `detect_motion`: grayscale conversion
and blur of both frames, absolute difference, binary threshold, then
dilation. -/
def motionMask {Img Gray Contour : Type} (ops : ImageOps Img Gray Contour)
    (prev_frame current_frame : Img) (threshold : ℚ) : Gray :=
  ops.dilate
    (ops.thresholdBin
      (ops.absdiff (ops.gaussianBlur (ops.cvtColorGray prev_frame))
        (ops.gaussianBlur (ops.cvtColorGray current_frame)))
      threshold)

/-- Embedding of `detect_motion` from `motion_detector.py`: the guard
`frame_idx < 1 or frame_idx >= len(frames)` returns `[]`; otherwise the
contours of the motion mask of `frames[frame_idx - 1]` and
`frames[frame_idx]` are filtered by `area > min_area` and mapped to
their bounding rectangles, in contour order. -/
def detect_motion {Img Gray Contour : Type} (ops : ImageOps Img Gray Contour)
    (frames : List Img) (frame_idx : ℤ) (threshold : ℚ) (min_area : ℚ) : List Box :=
  if frame_idx < 1 ∨ (frames.length : ℤ) ≤ frame_idx then []
  else
    match frames.get? frame_idx.toNat, frames.get? (frame_idx.toNat - 1) with
    | some current_frame, some prev_frame =>
      let contours := ops.findContours (motionMask ops prev_frame current_frame threshold)
      (contours.filter fun c => decide (min_area < ops.contourArea c)).map ops.boundingRect
    | _, _ => []

/-- A concrete instantiation of the raster primitives on `ℕ`, used to
evaluate `detect_motion` on sample inputs. -/
def natOps : ImageOps ℕ ℕ ℕ where
  cvtColorGray := fun i => i
  gaussianBlur := fun g => g
  absdiff := fun a b => a + b
  thresholdBin := fun g _ => g
  dilate := fun g => g
  findContours := fun g => [g]
  contourArea := fun c => (c : ℚ) * 100
  boundingRect := fun c => ((c : ℤ), (c : ℤ), 1, 1)

/-- Modelled from the spec's words for comparison with the code: the
spec states the smoothing recurrence with `round`
(`position[i] = round(position[i-1]*(1-a) + raw*a)`), whereas the code
truncates with `int()`. -/
def specRoundSmoothP (α : ℚ) (prev roi : ℤ × ℤ) : ℤ × ℤ :=
  (round ((prev.1 : ℚ) * (1 - α) + (roi.1 : ℚ) * α),
   round ((prev.2 : ℚ) * (1 - α) + (roi.2 : ℚ) * α))

/-- Truncation `pyInt` is the identity on integers. -/
lemma pyInt_intCast (n : ℤ) : pyInt (n : ℚ) = n := by
  unfold pyInt
  split
  · exact Int.floor_intCast n
  · exact Int.ceil_intCast n

/-- Truncation `pyInt` agrees with the floor on nonnegative rationals. -/
lemma pyInt_of_nonneg {q : ℚ} (h : 0 ≤ q) : pyInt q = ⌊q⌋ := by
  unfold pyInt
  exact if_pos h

/-- Twice the floored half of an integer is at most the integer. -/
lemma two_mul_fdiv_two_le (a : ℤ) : 2 * a.fdiv 2 ≤ a := by
  rw [Int.fdiv_eq_ediv _ (by norm_num)]
  omega

/-- Upper bound on an integer in terms of its floored half. -/
lemma le_two_mul_fdiv_two_add_one (a : ℤ) : a ≤ 2 * a.fdiv 2 + 1 := by
  rw [Int.fdiv_eq_ediv _ (by norm_num)]
  omega

/-- Claim C4: for every frames list and every index outside
`[1, len(frames))` — including index `0` and index `len(frames)` —
`detect_motion` returns an empty box list (as a total function it cannot
raise), for all threshold and `min_area` values. -/
theorem detect_motion_out_of_range {Img Gray Contour : Type}
    (ops : ImageOps Img Gray Contour) (frames : List Img) (frame_idx : ℤ)
    (threshold min_area : ℚ)
    (h : frame_idx < 1 ∨ (frames.length : ℤ) ≤ frame_idx) :
    detect_motion ops frames frame_idx threshold min_area = [] := by
  unfold detect_motion
  rw [if_pos h]

/-- Witness for claim C4 at a concrete input: index `0` on a one-frame
list. -/
theorem detect_motion_out_of_range_witness :
    detect_motion natOps [3] 0 25 100 = [] :=
  detect_motion_out_of_range natOps [3] 0 25 100 (Or.inl (by decide))

/-- Claim C6: every bounding box returned by `detect_motion` is the
bounding rectangle of a contour of the processed motion mask whose area
strictly exceeds `min_area`. -/
theorem detect_motion_box_from_large_contour {Img Gray Contour : Type}
    (ops : ImageOps Img Gray Contour) (frames : List Img) (frame_idx : ℤ)
    (threshold min_area : ℚ) (b : Box)
    (hb : b ∈ detect_motion ops frames frame_idx threshold min_area) :
    ∃ current_frame prev_frame c,
      frames.get? frame_idx.toNat = some current_frame ∧
      frames.get? (frame_idx.toNat - 1) = some prev_frame ∧
      c ∈ ops.findContours (motionMask ops prev_frame current_frame threshold) ∧
      min_area < ops.contourArea c ∧ b = ops.boundingRect c := by
  unfold detect_motion at hb
  split at hb
  · simp at hb
  · split at hb
    · next current_frame prev_frame h1 h2 =>
      rcases List.mem_map.1 hb with ⟨c, hc, rfl⟩
      rcases List.mem_filter.1 hc with ⟨hcmem, hdec⟩
      exact ⟨current_frame, prev_frame, c, h1, h2, hcmem, of_decide_eq_true hdec, rfl⟩
    · simp at hb

/-- Witness for claim C6 at a concrete input: with the `natOps`
primitives on frames `[3, 4]` at index `1`, the returned box
`(7, 7, 1, 1)` comes from contour `7` of area `700 > 100`. -/
theorem detect_motion_box_from_large_contour_witness :
    ∃ current_frame prev_frame c,
      ([3, 4] : List ℕ).get? (1 : ℤ).toNat = some current_frame ∧
      ([3, 4] : List ℕ).get? ((1 : ℤ).toNat - 1) = some prev_frame ∧
      c ∈ natOps.findContours (motionMask natOps prev_frame current_frame 25) ∧
      (100 : ℚ) < natOps.contourArea c ∧
      ((7 : ℤ), (7 : ℤ), (1 : ℤ), (1 : ℤ)) = natOps.boundingRect c :=
  detect_motion_box_from_large_contour natOps [3, 4] 1 25 100 (7, 7, 1, 1)
    (by norm_num [detect_motion, motionMask, natOps, List.filter])

/-- Claim C7 counterexample: for the single zero-area box
`(5, 5, 0, 10)` the total weight is `0`, so the code falls back to the
frame center `(50, 50, 0, 0)` instead of the claimed
`(x + w // 2, y + h // 2, w, h) = (5, 10, 0, 10)`. -/
theorem calculate_region_of_interest_single_zero_area :
    calculate_region_of_interest [((5 : ℤ), 5, 0, 10)] (100, 100) ≠
      (5 + (0 : ℤ).fdiv 2, 5 + (10 : ℤ).fdiv 2, 0, 10) := by
  decide

/-- Claim C7 (amended): for every single-element box list whose box has
positive area `w * h > 0`, `calculate_region_of_interest` returns
exactly `(x + w // 2, y + h // 2, w, h)` for every frame shape. -/
theorem calculate_region_of_interest_single_box (x y w h : ℤ) (sh : Shape)
    (hpos : 0 < w * h) :
    calculate_region_of_interest [(x, y, w, h)] sh =
      (x + w.fdiv 2, y + h.fdiv 2, w, h) := by
  have hne : ((w * h : ℤ) : ℚ) ≠ 0 := by
    exact_mod_cast hpos.ne'
  have h1 : roiFold [(x, y, w, h)] =
      ((x + w.fdiv 2) * (w * h), (y + h.fdiv 2) * (w * h), w * h) := by
    simp [roiFold, boxCenterX, boxCenterY, boxArea]
  have keyx : (((x + w.fdiv 2) * (w * h) : ℤ) : ℚ) / ((w * h : ℤ) : ℚ) =
      ((x + w.fdiv 2 : ℤ) : ℚ) := by
    rw [Int.cast_mul, mul_div_cancel_right₀ _ hne]
  have keyy : (((y + h.fdiv 2) * (w * h) : ℤ) : ℚ) / ((w * h : ℤ) : ℚ) =
      ((y + h.fdiv 2 : ℤ) : ℚ) := by
    rw [Int.cast_mul, mul_div_cancel_right₀ _ hne]
  show calculate_region_of_interest ((x, y, w, h) :: []) sh = _
  unfold calculate_region_of_interest
  simp only [show ((x, y, w, h) : Box) :: [] = [(x, y, w, h)] from rfl, h1]
  rw [if_pos hpos]
  simp only [largestBox, List.foldl, keyx, keyy, pyInt_intCast]

/-- Witness for claim C7 (amended) at a concrete input: the single box
`(5, 5, 2, 4)` of area `8`. -/
theorem calculate_region_of_interest_single_box_witness :
    calculate_region_of_interest [((5 : ℤ), 5, 2, 4)] (30, 40) =
      (5 + (2 : ℤ).fdiv 2, 5 + (4 : ℤ).fdiv 2, 2, 4) :=
  calculate_region_of_interest_single_box 5 5 2 4 (30, 40) (by norm_num)

/-- Floor division by two rewritten to Euclidean division (for `omega`
and numeral evaluation). -/
lemma fdiv_two_eq_ediv_two (a : ℤ) : a.fdiv 2 = a / 2 :=
  Int.fdiv_eq_ediv a (by norm_num)

/-- Unfolding of one loop iteration of `trackGo`. -/
lemma trackGo_cons (sh0 : Shape) (vp : ℤ × ℤ) (α : ℚ) (prev : ℤ × ℤ) (first : Bool)
    (boxes : List Box) (ms : List (List Box)) (sh : Shape) (fs : List Shape) :
    trackGo sh0 vp α prev first (boxes :: ms) (sh :: fs) =
      Option.map
        (fun rest =>
          clampP sh0 vp
              (if first then roiCenter boxes sh
               else smoothP α prev (roiCenter boxes sh)) :: rest)
        (trackGo sh0 vp α
          (clampP sh0 vp
            (if first then roiCenter boxes sh
             else smoothP α prev (roiCenter boxes sh)))
          false ms fs) := rfl

/-- The fold produces one position per motion result. -/
lemma trackGo_length (sh0 : Shape) (vp : ℤ × ℤ) (α : ℚ) :
    ∀ (ms : List (List Box)) (fs : List Shape) (prev : ℤ × ℤ) (first : Bool)
      (l : List (ℤ × ℤ)),
      trackGo sh0 vp α prev first ms fs = some l → l.length = ms.length := by
  intro ms
  induction ms with
  | nil =>
    intro fs prev first l h
    cases fs <;> · injection h with h; subst h; rfl
  | cons boxes ms ih =>
    intro fs prev first l h
    cases fs with
    | nil => exact absurd h (by simp [trackGo])
    | cons sh fs =>
      rw [trackGo_cons] at h
      rcases h' : trackGo sh0 vp α
          (clampP sh0 vp
            (if first then roiCenter boxes sh
             else smoothP α prev (roiCenter boxes sh)))
          false ms fs with _ | rest
      · rw [h'] at h; simp at h
      · rw [h'] at h
        injection h with h
        subst h
        simpa using ih fs _ false rest h'

/-- The fold succeeds whenever there are at least as many frames as
motion results. -/
lemma trackGo_isSome (sh0 : Shape) (vp : ℤ × ℤ) (α : ℚ) :
    ∀ (ms : List (List Box)) (fs : List Shape) (prev : ℤ × ℤ) (first : Bool),
      ms.length ≤ fs.length →
      ∃ l, trackGo sh0 vp α prev first ms fs = some l := by
  intro ms
  induction ms with
  | nil => intro fs prev first _; exact ⟨[], by cases fs <;> rfl⟩
  | cons boxes ms ih =>
    intro fs prev first hle
    cases fs with
    | nil => simp at hle
    | cons sh fs =>
      obtain ⟨l, hl⟩ := ih fs
        (clampP sh0 vp
          (if first then roiCenter boxes sh
           else smoothP α prev (roiCenter boxes sh)))
        false (by simpa using hle)
      exact ⟨_, by rw [trackGo_cons, hl]; rfl⟩

/-- A successful fold implies there were enough frames. -/
lemma trackGo_le_of_some (sh0 : Shape) (vp : ℤ × ℤ) (α : ℚ) :
    ∀ (ms : List (List Box)) (fs : List Shape) (prev : ℤ × ℤ) (first : Bool)
      (l : List (ℤ × ℤ)),
      trackGo sh0 vp α prev first ms fs = some l → ms.length ≤ fs.length := by
  intro ms
  induction ms with
  | nil => intro fs prev first l _; simp
  | cons boxes ms ih =>
    intro fs prev first l h
    cases fs with
    | nil => exact absurd h (by simp [trackGo])
    | cons sh fs =>
      rw [trackGo_cons] at h
      rcases h' : trackGo sh0 vp α
          (clampP sh0 vp
            (if first then roiCenter boxes sh
             else smoothP α prev (roiCenter boxes sh)))
          false ms fs with _ | rest
      · rw [h'] at h; simp at h
      · simpa using ih fs _ false rest h'

/-- Every emitted position is the output of the boundary clamp. -/
lemma trackGo_mem_clamp (sh0 : Shape) (vp : ℤ × ℤ) (α : ℚ) :
    ∀ (ms : List (List Box)) (fs : List Shape) (prev : ℤ × ℤ) (first : Bool)
      (l : List (ℤ × ℤ)),
      trackGo sh0 vp α prev first ms fs = some l →
      ∀ p ∈ l, ∃ s, p = clampP sh0 vp s := by
  intro ms
  induction ms with
  | nil =>
    intro fs prev first l h p hp
    cases fs <;> · injection h with h; subst h; simp at hp
  | cons boxes ms ih =>
    intro fs prev first l h p hp
    cases fs with
    | nil => exact absurd h (by simp [trackGo])
    | cons sh fs =>
      rw [trackGo_cons] at h
      rcases h' : trackGo sh0 vp α
          (clampP sh0 vp
            (if first then roiCenter boxes sh
             else smoothP α prev (roiCenter boxes sh)))
          false ms fs with _ | rest
      · rw [h'] at h; simp at h
      · rw [h'] at h
        injection h with h
        subst h
        rcases List.mem_cons.1 hp with rfl | hp'
        · exact ⟨_, rfl⟩
        · exact ih fs _ false rest h' p hp'

/-- Index-wise characterization of the fold output: position `0` is the
clamped (possibly unsmoothed) ROI center of the first pair, and position
`i + 1` is the clamp of the smoothing update of position `i` with the
ROI center of pair `i + 1`. -/
lemma trackGo_char (sh0 : Shape) (vp : ℤ × ℤ) (α : ℚ) :
    ∀ (ms : List (List Box)) (fs : List Shape) (prev : ℤ × ℤ) (first : Bool)
      (l : List (ℤ × ℤ)),
      trackGo sh0 vp α prev first ms fs = some l →
      (∀ b sh, ms.get? 0 = some b → fs.get? 0 = some sh →
        l.get? 0 = some (clampP sh0 vp
          (if first then roiCenter b sh else smoothP α prev (roiCenter b sh)))) ∧
      (∀ i b sh, ms.get? (i + 1) = some b → fs.get? (i + 1) = some sh →
        l.get? (i + 1) = some (clampP sh0 vp
          (smoothP α (l.getD i (0, 0)) (roiCenter b sh)))) := by
  intro ms
  induction ms with
  | nil =>
    intro fs prev first l h
    constructor
    · intro b sh hb; simp at hb
    · intro i b sh hb; simp at hb
  | cons boxes ms ih =>
    intro fs prev first l h
    cases fs with
    | nil => exact absurd h (by simp [trackGo])
    | cons sh' fs =>
      rw [trackGo_cons] at h
      rcases h' : trackGo sh0 vp α
          (clampP sh0 vp
            (if first then roiCenter boxes sh'
             else smoothP α prev (roiCenter boxes sh')))
          false ms fs with _ | rest
      · rw [h'] at h; simp at h
      · rw [h'] at h
        injection h with h
        subst h
        have ihr := ih fs _ false rest h'
        constructor
        · intro b sh hb hsh
          rw [List.get?_cons_zero] at hb hsh
          injection hb with hb
          injection hsh with hsh
          subst hb; subst hsh
          rfl
        · intro i b sh hb hsh
          rw [List.get?_cons_succ] at hb hsh
          cases i with
          | zero =>
            have := ihr.1 b sh hb hsh
            simpa using this
          | succ j =>
            have := ihr.2 j b sh hb hsh
            simpa using this

/-- The clamp output lies in `[lo, hi]` whenever the range is not
inverted. -/
lemma clampI_bounds {lo hi : ℤ} (x : ℤ) (h : lo ≤ hi) :
    lo ≤ clampI lo hi x ∧ clampI lo hi x ≤ hi := by
  unfold clampI
  omega

/-- Claim C5: for index-aligned inputs of equal length, `track_viewport`
succeeds and returns exactly one position per motion result; for empty
frames it returns the empty sequence (not an error). -/
theorem track_viewport_length_eq (frames : List Shape) (ms : List (List Box))
    (vp : ℤ × ℤ) (α : ℚ) (hlen : ms.length = frames.length) :
    ∃ pos, track_viewport frames ms vp α = some pos ∧
      pos.length = ms.length ∧ (frames = [] → pos = []) := by
  cases frames with
  | nil =>
    obtain rfl : ms = [] := List.length_eq_zero.1 (by simpa using hlen)
    exact ⟨[], rfl, rfl, fun _ => rfl⟩
  | cons sh0 fs =>
    obtain ⟨l, hl⟩ := trackGo_isSome sh0 vp α ms (sh0 :: fs)
      ((sh0.2).fdiv 2, (sh0.1).fdiv 2) true (le_of_eq hlen)
    exact ⟨l, hl, trackGo_length sh0 vp α ms (sh0 :: fs) _ true l hl,
      fun hc => by simp at hc⟩

/-- Witness for claim C5 at a concrete input: the empty input. -/
theorem track_viewport_length_eq_witness :
    ∃ pos, track_viewport ([] : List Shape) [] (10, 10) (3 / 10) = some pos ∧
      pos.length = ([] : List (List Box)).length ∧
      (([] : List Shape) = [] → pos = []) :=
  track_viewport_length_eq [] [] (10, 10) (3 / 10) rfl

/-- Claim C2: when the viewport does not exceed the (first) frame's
dimensions, every returned position lies in the boundary-clamp interval
`[vp_w // 2, width - vp_w // 2] × [vp_h // 2, height - vp_h // 2]`. -/
theorem track_viewport_clamp_invariant (frames : List Shape) (ms : List (List Box))
    (vp : ℤ × ℤ) (α : ℚ) (d0 : Shape) (h0 : frames.head? = some d0)
    (hvx : vp.1 ≤ d0.2) (hvy : vp.2 ≤ d0.1)
    (pos : List (ℤ × ℤ)) (hp : track_viewport frames ms vp α = some pos)
    (p : ℤ × ℤ) (hmem : p ∈ pos) :
    ((vp.1).fdiv 2 ≤ p.1 ∧ p.1 ≤ d0.2 - (vp.1).fdiv 2) ∧
    ((vp.2).fdiv 2 ≤ p.2 ∧ p.2 ≤ d0.1 - (vp.2).fdiv 2) := by
  cases frames with
  | nil =>
    injection hp with hp
    subst hp
    simp at hmem
  | cons sh0 fs =>
    obtain rfl : d0 = sh0 := by symm; simpa using h0
    obtain ⟨s, rfl⟩ := trackGo_mem_clamp d0 vp α ms (d0 :: fs) _ true pos hp p hmem
    have hx : 2 * (vp.1).fdiv 2 ≤ d0.2 := le_trans (two_mul_fdiv_two_le vp.1) hvx
    have hy : 2 * (vp.2).fdiv 2 ≤ d0.1 := le_trans (two_mul_fdiv_two_le vp.2) hvy
    simp only [clampP, clampI]
    omega

/-- Witness for claim C2 at a concrete input: one 100×100 frame, no
motion, viewport 10×10; the returned center (50, 50) is in bounds. -/
theorem track_viewport_clamp_invariant_witness :
    (((10 : ℤ).fdiv 2 ≤ (50 : ℤ) ∧ (50 : ℤ) ≤ 100 - (10 : ℤ).fdiv 2) ∧
     ((10 : ℤ).fdiv 2 ≤ (50 : ℤ) ∧ (50 : ℤ) ≤ 100 - (10 : ℤ).fdiv 2)) :=
  track_viewport_clamp_invariant [(100, 100)] [[]] (10, 10) (3 / 10) (100, 100)
    rfl (by decide) (by decide) [(50, 50)] (by decide) (50, 50) (by decide)

/-- Claim C9: the clamp bounds come exclusively from `frames[0]`'s
shape, while the ROI for index `i` is computed from `frames[i]`'s own
shape: `pos[i]` is the `frames[0]`-clamp of the (seed or smoothed) ROI
value of pair `i`. -/
theorem track_viewport_clamp_uses_first_frame (frames : List Shape)
    (ms : List (List Box)) (vp : ℤ × ℤ) (α : ℚ) (d0 : Shape)
    (h0 : frames.head? = some d0)
    (pos : List (ℤ × ℤ)) (hp : track_viewport frames ms vp α = some pos)
    (i : ℕ) (hi : i < ms.length) :
    ∃ b sh, ms.get? i = some b ∧ frames.get? i = some sh ∧
      pos.get? i = some (clampP d0 vp
        (if i = 0 then roiCenter b sh
         else smoothP α (pos.getD (i - 1) (0, 0)) (roiCenter b sh))) := by
  cases frames with
  | nil => simp at h0
  | cons sh0 fs =>
    obtain rfl : d0 = sh0 := by symm; simpa using h0
    have hle := trackGo_le_of_some d0 vp α ms (d0 :: fs) _ true pos hp
    have hchar := trackGo_char d0 vp α ms (d0 :: fs) _ true pos hp
    have hifs : i < (d0 :: fs).length := lt_of_lt_of_le hi hle
    obtain ⟨b, hb⟩ : ∃ b, ms.get? i = some b := ⟨_, List.get?_eq_get hi⟩
    obtain ⟨sh, hsh⟩ : ∃ sh, (d0 :: fs).get? i = some sh := ⟨_, List.get?_eq_get hifs⟩
    refine ⟨b, sh, hb, hsh, ?_⟩
    cases i with
    | zero =>
      have := hchar.1 b sh hb hsh
      simpa using this
    | succ j =>
      have := hchar.2 j b sh hb hsh
      simpa using this

/-- Claim C10: when the viewport exceeds the first frame's dimensions on
an axis (inverted clamp range), `track_viewport` raises no error and, on
that axis, every returned coordinate equals the lower clamp bound
`vp // 2`. -/
theorem track_viewport_inverted_clamp (frames : List Shape) (ms : List (List Box))
    (vp : ℤ × ℤ) (α : ℚ) (d0 : Shape) (h0 : frames.head? = some d0)
    (hlen : ms.length = frames.length) :
    ∃ pos, track_viewport frames ms vp α = some pos ∧
      (d0.2 < vp.1 → ∀ p ∈ pos, p.1 = (vp.1).fdiv 2) ∧
      (d0.1 < vp.2 → ∀ p ∈ pos, p.2 = (vp.2).fdiv 2) := by
  cases frames with
  | nil => simp at h0
  | cons sh0 fs =>
    obtain rfl : d0 = sh0 := by symm; simpa using h0
    obtain ⟨pos, hp⟩ := trackGo_isSome d0 vp α ms (d0 :: fs)
      ((d0.2).fdiv 2, (d0.1).fdiv 2) true (le_of_eq hlen)
    refine ⟨pos, hp, ?_, ?_⟩
    · intro hx p hmem
      obtain ⟨s, rfl⟩ := trackGo_mem_clamp d0 vp α ms (d0 :: fs) _ true pos hp p hmem
      have h1 : d0.2 ≤ 2 * (vp.1).fdiv 2 := by
        have := le_two_mul_fdiv_two_add_one vp.1
        omega
      simp only [clampP, clampI]
      omega
    · intro hy p hmem
      obtain ⟨s, rfl⟩ := trackGo_mem_clamp d0 vp α ms (d0 :: fs) _ true pos hp p hmem
      have h1 : d0.1 ≤ 2 * (vp.2).fdiv 2 := by
        have := le_two_mul_fdiv_two_add_one vp.2
        omega
      simp only [clampP, clampI]
      omega

/-- Witness for claim C10 at a concrete input: a 10×10 frame with a
20×20 viewport. -/
theorem track_viewport_inverted_clamp_witness :
    ∃ pos, track_viewport [((10 : ℤ), 10)] [[]] (20, 20) (3 / 10) = some pos ∧
      ((10 : ℤ) < 20 → ∀ p ∈ pos, p.1 = (20 : ℤ).fdiv 2) ∧
      ((10 : ℤ) < 20 → ∀ p ∈ pos, p.2 = (20 : ℤ).fdiv 2) :=
  track_viewport_inverted_clamp [(10, 10)] [[]] (20, 20) (3 / 10) (10, 10) rfl
    (by decide)

/-- Claim C3 (code bug): with a 10×10 frame and a 20×20 viewport — the
viewport exceeding both frame dimensions — `track_viewport` performs no
size check and raises no error: it silently returns the position
sequence `[(10, 10)]`, each coordinate clamped to the lower bound,
whereas the spec mandates a defined size-mismatch failure. -/
theorem track_viewport_no_error_on_oversized_viewport :
    track_viewport [((10 : ℤ), 10)] [[]] (20, 20) (3 / 10) = some [(10, 10)] := by
  decide

/-- Witness for claim C9 at a concrete input: two frames of different
shapes (100×100 then 200-wide); position 1 is clamped with frame 0's
dimensions while its ROI comes from frame 1's own shape. -/
theorem track_viewport_clamp_uses_first_frame_witness :
    ∃ b sh, ([[], []] : List (List Box)).get? 1 = some b ∧
      ([((100 : ℤ), 100), (50, 200)] : List Shape).get? 1 = some sh ∧
      ([((50 : ℤ), 50), (65, 42)] : List (ℤ × ℤ)).get? 1 =
        some (clampP (100, 100) (10, 10)
          (if (1 : ℕ) = 0 then roiCenter b sh
           else smoothP (3 / 10)
             (([((50 : ℤ), 50), (65, 42)] : List (ℤ × ℤ)).getD 0 (0, 0))
             (roiCenter b sh))) :=
  track_viewport_clamp_uses_first_frame [(100, 100), (50, 200)] [[], []] (10, 10)
    (3 / 10) (100, 100) rfl [(50, 50), (65, 42)]
    (by norm_num [track_viewport, trackGo, roiCenter, calculate_region_of_interest,
      clampP, clampI, smoothP, smoothI, pyInt, fdiv_two_eq_ediv_two, max_def, min_def])
    1 (by decide)

/-- Claim C1 (amended): for every frame index `i > 0`, the returned
position is `clamp(int(position[i-1]*(1-α) + raw[i]*α))` — the Python
`int()` truncation of the convex combination (floor, for the
nonnegative values arising here), not `round` — where `raw[i]` is the
ROI center of `motion_results[i]` and `position[i-1]` is the previous
clamped position (clamped values, not raw smoothed values, feed the next
iteration). -/
theorem track_viewport_smoothing_recurrence (frames : List Shape)
    (ms : List (List Box)) (vp : ℤ × ℤ) (α : ℚ) (d0 : Shape)
    (h0 : frames.head? = some d0)
    (pos : List (ℤ × ℤ)) (hp : track_viewport frames ms vp α = some pos)
    (i : ℕ) (hi : i + 1 < ms.length) :
    ∃ p b sh, pos.get? i = some p ∧ ms.get? (i + 1) = some b ∧
      frames.get? (i + 1) = some sh ∧
      pos.get? (i + 1) = some (clampP d0 vp (smoothP α p (roiCenter b sh))) := by
  cases frames with
  | nil => simp at h0
  | cons sh0 fs =>
    obtain rfl : d0 = sh0 := by symm; simpa using h0
    have hle := trackGo_le_of_some d0 vp α ms (d0 :: fs) _ true pos hp
    have hlen := trackGo_length d0 vp α ms (d0 :: fs) _ true pos hp
    have hchar := trackGo_char d0 vp α ms (d0 :: fs) _ true pos hp
    obtain ⟨b, hb⟩ : ∃ b, ms.get? (i + 1) = some b := ⟨_, List.get?_eq_get hi⟩
    obtain ⟨sh, hsh⟩ : ∃ sh, (d0 :: fs).get? (i + 1) = some sh :=
      ⟨_, List.get?_eq_get (lt_of_lt_of_le hi hle)⟩
    obtain ⟨p, hpi⟩ : ∃ p, pos.get? i = some p :=
      ⟨_, List.get?_eq_get (show i < pos.length by omega)⟩
    have hstep := hchar.2 i b sh hb hsh
    have hgd : pos.getD i (0, 0) = p := by
      rw [List.getD_eq_getElem?_getD, ← List.get?_eq_getElem?, hpi]
      rfl
    rw [hgd] at hstep
    exact ⟨p, b, sh, hpi, hb, hsh, hstep⟩

/-- Witness for claim C1 (amended) at a concrete input: two 100×100
frames, one motion box in frame 1. -/
theorem track_viewport_smoothing_recurrence_witness :
    ∃ p b sh, ([((50 : ℤ), 50), (50, 50)] : List (ℤ × ℤ)).get? 0 = some p ∧
      ([[], [(43, 43, 20, 20)]] : List (List Box)).get? 1 = some b ∧
      ([((100 : ℤ), 100), (100, 100)] : List Shape).get? 1 = some sh ∧
      ([((50 : ℤ), 50), (50, 50)] : List (ℤ × ℤ)).get? 1 =
        some (clampP (100, 100) (0, 0) (smoothP (3 / 10) p (roiCenter b sh))) :=
  track_viewport_smoothing_recurrence [(100, 100), (100, 100)]
    [[], [(43, 43, 20, 20)]] (0, 0) (3 / 10) (100, 100) rfl [(50, 50), (50, 50)]
    (by norm_num [track_viewport, trackGo, roiCenter, calculate_region_of_interest,
      roiFold, largestBox, boxArea, boxCenterX, boxCenterY, clampP, clampI, smoothP,
      smoothI, pyInt, fdiv_two_eq_ediv_two, max_def, min_def])
    0 (by decide)

/-- Claim C1 counterexample: on two 100×100 frames with a single box of
center `(53, 53)` in frame 1, no clamping active (`viewport_size =
(0, 0)`) and `α = 3/10`, the code yields position
`int(50*0.7 + 53*0.3) = int(50.9) = 50`, while the claimed recurrence
`round(50.9) = 51` yields `(51, 51)`: the claim, as stated with `round`,
is false at this input. -/
theorem track_viewport_round_counterexample :
    track_viewport [((100 : ℤ), 100), (100, 100)] [[], [(43, 43, 20, 20)]] (0, 0)
        (3 / 10) = some [(50, 50), (50, 50)] ∧
    clampP (100, 100) (0, 0)
        (specRoundSmoothP (3 / 10) (50, 50)
          (roiCenter [((43 : ℤ), 43, 20, 20)] (100, 100))) ≠ ((50 : ℤ), (50 : ℤ)) := by
  constructor
  · norm_num [track_viewport, trackGo, roiCenter, calculate_region_of_interest,
      roiFold, largestBox, boxArea, boxCenterX, boxCenterY, clampP, clampI, smoothP,
      smoothI, pyInt, fdiv_two_eq_ediv_two, max_def, min_def]
  · norm_num [specRoundSmoothP, roiCenter, calculate_region_of_interest, roiFold,
      largestBox, boxArea, boxCenterX, boxCenterY, clampP, clampI, pyInt,
      fdiv_two_eq_ediv_two, round_eq, max_def, min_def]

/-- One axis of a smoothing-plus-clamp step at a reachable target `B`:
starting from a clamped value `p`, the result stays between `p` and `B`
(no overshoot). -/
lemma step_between_axis (lo hi p B : ℤ) (α : ℚ) (hα0 : 0 ≤ α) (hα1 : α ≤ 1)
    (hlo : 0 ≤ lo) (hp1 : lo ≤ p) (hp2 : p ≤ hi) (hB1 : lo ≤ B) (hB2 : B ≤ hi) :
    min p B ≤ clampI lo hi (smoothI α p B) ∧
    clampI lo hi (smoothI α p B) ≤ max p B := by
  have hq1 : ((min p B : ℤ) : ℚ) ≤ (p : ℚ) * (1 - α) + (B : ℚ) * α := by
    rcases le_total p B with h | h
    · rw [min_eq_left h]
      have hc : (p : ℚ) ≤ (B : ℚ) := by exact_mod_cast h
      nlinarith
    · rw [min_eq_right h]
      have hc : (B : ℚ) ≤ (p : ℚ) := by exact_mod_cast h
      nlinarith
  have hq2 : (p : ℚ) * (1 - α) + (B : ℚ) * α ≤ ((max p B : ℤ) : ℚ) := by
    rcases le_total p B with h | h
    · rw [max_eq_right h]
      have hc : (p : ℚ) ≤ (B : ℚ) := by exact_mod_cast h
      nlinarith
    · rw [max_eq_left h]
      have hc : (B : ℚ) ≤ (p : ℚ) := by exact_mod_cast h
      nlinarith
  have hmin0 : (0 : ℚ) ≤ ((min p B : ℤ) : ℚ) := by
    exact_mod_cast le_min (hlo.trans hp1) (hlo.trans hB1)
  have h0q : (0 : ℚ) ≤ (p : ℚ) * (1 - α) + (B : ℚ) * α := hmin0.trans hq1
  have hsm : smoothI α p B = ⌊(p : ℚ) * (1 - α) + (B : ℚ) * α⌋ := by
    unfold smoothI
    exact pyInt_of_nonneg h0q
  have hf1 : min p B ≤ smoothI α p B := by
    rw [hsm]
    exact Int.le_floor.2 hq1
  have hf2 : smoothI α p B ≤ max p B := by
    rw [hsm]
    calc ⌊(p : ℚ) * (1 - α) + (B : ℚ) * α⌋ ≤ ⌊((max p B : ℤ) : ℚ)⌋ :=
        Int.floor_le_floor hq2
      _ = max p B := Int.floor_intCast _
  have hc1 : lo ≤ smoothI α p B := le_trans (le_min hp1 hB1) hf1
  have hc2 : smoothI α p B ≤ hi := le_trans hf2 (max_le hp2 hB2)
  have hcl : clampI lo hi (smoothI α p B) = smoothI α p B := by
    unfold clampI
    omega
  rw [hcl]
  exact ⟨hf1, hf2⟩

/-- Claim C8: step-response scenario.  The ROI sits at the frame center
at the seed frame (empty box list) and at a fixed reachable point
`(bx, yB)` for the following 50 frames, with `α = 3/10`; the position
sequence monotonically approaches the target without overshoot: each
position lies between the previous position and the target on both
axes. -/
theorem track_viewport_step_response (ht wd vpw vph bx yB : ℤ) (boxes : List Box)
    (hvw0 : 0 ≤ vpw) (hvww : vpw ≤ wd) (hvh0 : 0 ≤ vph) (hvhh : vph ≤ ht)
    (hbx1 : vpw.fdiv 2 ≤ bx) (hbx2 : bx ≤ wd - vpw.fdiv 2)
    (hby1 : vph.fdiv 2 ≤ yB) (hby2 : yB ≤ ht - vph.fdiv 2)
    (hroi : roiCenter boxes (ht, wd) = (bx, yB)) :
    ∃ pos,
      track_viewport ((ht, wd) :: List.replicate 50 (ht, wd))
          ([] :: List.replicate 50 boxes) (vpw, vph) (3 / 10) = some pos ∧
      pos.length = 51 ∧
      ∀ i, i + 1 < pos.length →
        ((min (pos.getD i (0, 0)).1 bx ≤ (pos.getD (i + 1) (0, 0)).1 ∧
          (pos.getD (i + 1) (0, 0)).1 ≤ max (pos.getD i (0, 0)).1 bx) ∧
         (min (pos.getD i (0, 0)).2 yB ≤ (pos.getD (i + 1) (0, 0)).2 ∧
          (pos.getD (i + 1) (0, 0)).2 ≤ max (pos.getD i (0, 0)).2 yB)) := by
  obtain ⟨pos, hp⟩ := trackGo_isSome (ht, wd) (vpw, vph) (3 / 10)
    ([] :: List.replicate 50 boxes) ((ht, wd) :: List.replicate 50 (ht, wd))
    (wd.fdiv 2, ht.fdiv 2) true (by simp)
  have hptrack : track_viewport ((ht, wd) :: List.replicate 50 (ht, wd))
      ([] :: List.replicate 50 boxes) (vpw, vph) (3 / 10) = some pos := hp
  have hplen : pos.length = 51 := by
    have := trackGo_length (ht, wd) (vpw, vph) (3 / 10) _ _ _ _ _ hp
    simpa using this
  have hchar := trackGo_char (ht, wd) (vpw, vph) (3 / 10) _ _ _ _ _ hp
  refine ⟨pos, hptrack, hplen, ?_⟩
  intro i hi
  have hi50 : i < 50 := by omega
  have hms : ([] :: List.replicate 50 boxes).get? (i + 1) = some boxes := by
    rw [List.get?_cons_succ, List.get?_eq_getElem?, List.getElem?_replicate, if_pos hi50]
  have hfs : (((ht, wd) : Shape) :: List.replicate 50 ((ht, wd) : Shape)).get? (i + 1) =
      some ((ht, wd) : Shape) := by
    rw [List.get?_cons_succ, List.get?_eq_getElem?, List.getElem?_replicate, if_pos hi50]
  have hstep := hchar.2 i boxes (ht, wd) hms hfs
  rw [hroi] at hstep
  obtain ⟨p, hpi⟩ : ∃ p, pos.get? i = some p :=
    ⟨_, List.get?_eq_get (show i < pos.length by omega)⟩
  have hgdi : pos.getD i (0, 0) = p := by
    rw [List.getD_eq_getElem?_getD, ← List.get?_eq_getElem?, hpi]
    rfl
  rw [hgdi] at hstep
  have hgds : pos.getD (i + 1) (0, 0) =
      clampP (ht, wd) (vpw, vph) (smoothP (3 / 10) p (bx, yB)) := by
    rw [List.getD_eq_getElem?_getD, ← List.get?_eq_getElem?, hstep]
    rfl
  have hmemp : p ∈ pos := List.get?_mem hpi
  obtain ⟨s, hps⟩ := trackGo_mem_clamp (ht, wd) (vpw, vph) (3 / 10) _ _ _ _ _ hp p hmemp
  have hlo_x : vpw.fdiv 2 ≤ wd - vpw.fdiv 2 := by
    have := two_mul_fdiv_two_le vpw
    omega
  have hlo_y : vph.fdiv 2 ≤ ht - vph.fdiv 2 := by
    have := two_mul_fdiv_two_le vph
    omega
  have hpx : vpw.fdiv 2 ≤ p.1 ∧ p.1 ≤ wd - vpw.fdiv 2 := by
    rw [hps]
    exact clampI_bounds s.1 hlo_x
  have hpy : vph.fdiv 2 ≤ p.2 ∧ p.2 ≤ ht - vph.fdiv 2 := by
    rw [hps]
    exact clampI_bounds s.2 hlo_y
  have hx := step_between_axis (vpw.fdiv 2) (wd - vpw.fdiv 2) p.1 bx (3 / 10)
    (by norm_num) (by norm_num) (Int.fdiv_nonneg hvw0 (by norm_num))
    hpx.1 hpx.2 hbx1 hbx2
  have hy := step_between_axis (vph.fdiv 2) (ht - vph.fdiv 2) p.2 yB (3 / 10)
    (by norm_num) (by norm_num) (Int.fdiv_nonneg hvh0 (by norm_num))
    hpy.1 hpy.2 hby1 hby2
  rw [hgdi, hgds]
  exact ⟨hx, hy⟩

/-- Witness for claim C8 at a concrete input: 100×100 frames, viewport
10×10, target ROI center (80, 70) held for 50 frames. -/
theorem track_viewport_step_response_witness :
    ∃ pos,
      track_viewport (((100 : ℤ), (100 : ℤ)) :: List.replicate 50 ((100 : ℤ), (100 : ℤ)))
          ([] :: List.replicate 50 [((79 : ℤ), 69, 2, 2)]) (10, 10) (3 / 10) = some pos ∧
      pos.length = 51 ∧
      ∀ i, i + 1 < pos.length →
        ((min (pos.getD i (0, 0)).1 80 ≤ (pos.getD (i + 1) (0, 0)).1 ∧
          (pos.getD (i + 1) (0, 0)).1 ≤ max (pos.getD i (0, 0)).1 80) ∧
         (min (pos.getD i (0, 0)).2 70 ≤ (pos.getD (i + 1) (0, 0)).2 ∧
          (pos.getD (i + 1) (0, 0)).2 ≤ max (pos.getD i (0, 0)).2 70)) :=
  track_viewport_step_response 100 100 10 10 80 70 [(79, 69, 2, 2)]
    (by decide) (by decide) (by decide) (by decide)
    (by decide) (by decide) (by decide) (by decide)
    (by norm_num [roiCenter, calculate_region_of_interest, roiFold, largestBox,
      boxArea, boxCenterX, boxCenterY, pyInt, fdiv_two_eq_ediv_two])
